import Mathlib

/-!
Verification of the virtual-filesystem path layer (`src/lib.rs`).

The development shallowly embeds the code of `lib.rs`:

* `VfsError`, `with_context`, `VfsError.display` embed the error enum, the
  `ResultExt::with_context` combinator and the `thiserror`-derived `Display`
  instances.
* `Backend` embeds the `VFS` trait: each fallible primitive is a state
  transformer `σ → String → Except VfsError α × σ`; `exists_` embeds the
  infallible `exists` query.
* `VPath` embeds the path-handle struct; its methods delegate to the backend
  and attach exactly the context strings of the source.
* `createDirAllLoop` embeds the index-based loop of `VPath::create_dir_all`.
  Rust `str` slicing works at byte indices; since `'/'` is a one-byte ASCII
  character, the sequence of prefixes the loop cuts is the same whether
  positions are counted in bytes or in characters, so the loop is embedded
  over `List Char`.  A result of `none` models the out-of-bounds slice panic
  of `path[pos..]` when `pos > path.len()`.
* `removeDirAllFuel` embeds the recursive `VPath::remove_dir_all`; the fuel
  argument bounds the recursion depth and `none` models non-termination
  (the Rust recursion has no intrinsic bound for an arbitrary backend).
  Both composite operations also return the list of primitive backend calls
  they performed, in order, so that frame properties can be stated.
* The in-memory backend (module `memory`) is not part of the sources under
  verification; the definitions prefixed `mem` are modelled from the spec's
  description of its file-content consistency model.
-/

/-- Embeds `enum VfsError` from `lib.rs`.  `IoError` carries an opaque message
standing for the wrapped `std::io::Error`; `WithContext` owns its boxed
cause. -/
inductive VfsError where
  | IoError (msg : String)
  | FileNotFound (path : String)
  | Other (message : String)
  | WithContext (context : String) (cause : VfsError)
deriving DecidableEq

/-- Decidable equality for `Except`, used to evaluate the embedding at
concrete inputs. -/
def Except.decEq {ε α : Type} [DecidableEq ε] [DecidableEq α] :
    (a b : Except ε α) → Decidable (a = b)
  | .error x, .error y =>
    if h : x = y then .isTrue (by rw [h]) else .isFalse (by intro hc; cases hc; exact h rfl)
  | .error _, .ok _ => .isFalse (by intro hc; cases hc)
  | .ok _, .error _ => .isFalse (by intro hc; cases hc)
  | .ok x, .ok y =>
    if h : x = y then .isTrue (by rw [h]) else .isFalse (by intro hc; cases hc; exact h rfl)

instance {ε α : Type} [DecidableEq ε] [DecidableEq α] : DecidableEq (Except ε α) :=
  Except.decEq

/-- Embeds `ResultExt::with_context`: `map_err` wrapping the error in one
`WithContext` frame whose context is produced lazily. -/
def with_context {α : Type} (context : Unit → String) (r : Except VfsError α) :
    Except VfsError α :=
  r.mapError (fun error => VfsError.WithContext (context ()) error)

/-- Embeds the `thiserror`-derived `Display` for `VfsError`: each leaf renders
its own message, and `WithContext` renders `"{context}, cause: {cause}"`
recursively. -/
def VfsError.display : VfsError → String
  | .IoError _ => "data store disconnected"
  | .FileNotFound path => "the file or directory `" ++ path ++ "` could not be found"
  | .Other message => "other VFS error: " ++ message
  | .WithContext context cause => context ++ ", cause: " ++ cause.display

/-- The innermost (leaf) cause of an error chain: strips every `WithContext`
frame. -/
def VfsError.rootCause : VfsError → VfsError
  | .WithContext _ cause => cause.rootCause
  | e => e

/-- Whether the outermost constructor of an error is a `WithContext` frame. -/
def VfsError.isWithContext : VfsError → Bool
  | .WithContext _ _ => true
  | _ => false

/-- Embeds `enum VFileType`. -/
inductive VFileType where
  | File
  | Directory
deriving DecidableEq

/-- Embeds `struct VMetadata`. -/
structure VMetadata where
  file_type : VFileType
  len : Nat
deriving DecidableEq

/-- Embeds `trait VFS`, the backend capability contract.  The Rust trait
methods take `&self` and mutate backend-internal state behind the shared
reference; the embedding passes that state `σ` explicitly.  `ρ` and `ω` are
the reader and writer handle types (`Box<dyn SeekAndRead>`, `Box<dyn Write>`).
`exists_` embeds `exists`, which never fails and is a query. -/
structure Backend (σ ρ ω : Type) where
  read_dir : σ → String → Except VfsError (List String) × σ
  create_dir : σ → String → Except VfsError Unit × σ
  open_file : σ → String → Except VfsError ρ × σ
  create_file : σ → String → Except VfsError ω × σ
  append_file : σ → String → Except VfsError ω × σ
  metadata : σ → String → Except VfsError VMetadata × σ
  exists_ : σ → String → Bool
  remove_file : σ → String → Except VfsError Unit × σ
  remove_dir : σ → String → Except VfsError Unit × σ

/-- Embeds `struct VPath`: a path string paired with the shared filesystem
handle.  The `Arc<FileSystem>` indirection carries no data besides the boxed
backend, so the handle is embedded as the backend itself. -/
structure VPath (σ ρ ω : Type) where
  path : String
  fs : Backend σ ρ ω

/-- Embeds `VPath::join`: `format!("{}/{}", self.path, path)` with the same
shared filesystem handle. -/
def VPath.join {σ ρ ω : Type} (v : VPath σ ρ ω) (path : String) : VPath σ ρ ω :=
  VPath.mk (v.path ++ "/" ++ path) v.fs

/-- Embeds `VPath::read_dir`: delegates to the backend, attaches the context
frame, and maps each returned child name to a `VPath` joined from the parent
path and sharing the filesystem handle. -/
def VPath.read_dir {σ ρ ω : Type} (v : VPath σ ρ ω) (s : σ) :
    Except VfsError (List (VPath σ ρ ω)) × σ :=
  match v.fs.read_dir s v.path with
  | (r, s') =>
    ((with_context (fun _ => "Could not read directory '" ++ v.path ++ "'") r).map
      (fun names => names.map (fun name => VPath.mk (v.path ++ "/" ++ name) v.fs)), s')

/-- Embeds `VPath::create_dir` (the primitive delegation, not the recursive
variant). -/
def VPath.create_dir {σ ρ ω : Type} (v : VPath σ ρ ω) (s : σ) :
    Except VfsError Unit × σ :=
  match v.fs.create_dir s v.path with
  | (r, s') => (with_context (fun _ => "Could not create directory '" ++ v.path ++ "'") r, s')

/-- Embeds `VPath::open_file`. -/
def VPath.open_file {σ ρ ω : Type} (v : VPath σ ρ ω) (s : σ) :
    Except VfsError ρ × σ :=
  match v.fs.open_file s v.path with
  | (r, s') => (with_context (fun _ => "Could not open file '" ++ v.path ++ "'") r, s')

/-- Embeds `VPath::create_file`. -/
def VPath.create_file {σ ρ ω : Type} (v : VPath σ ρ ω) (s : σ) :
    Except VfsError ω × σ :=
  match v.fs.create_file s v.path with
  | (r, s') => (with_context (fun _ => "Could not create file '" ++ v.path ++ "'") r, s')

/-- Embeds `VPath::append_file`. -/
def VPath.append_file {σ ρ ω : Type} (v : VPath σ ρ ω) (s : σ) :
    Except VfsError ω × σ :=
  match v.fs.append_file s v.path with
  | (r, s') => (with_context (fun _ => "Could not open file '" ++ v.path ++ "' for appending") r, s')

/-- Embeds `VPath::remove_file`. -/
def VPath.remove_file {σ ρ ω : Type} (v : VPath σ ρ ω) (s : σ) :
    Except VfsError Unit × σ :=
  match v.fs.remove_file s v.path with
  | (r, s') => (with_context (fun _ => "Could not remove file '" ++ v.path ++ "'") r, s')

/-- Embeds `VPath::remove_dir`. -/
def VPath.remove_dir {σ ρ ω : Type} (v : VPath σ ρ ω) (s : σ) :
    Except VfsError Unit × σ :=
  match v.fs.remove_dir s v.path with
  | (r, s') => (with_context (fun _ => "Could not remove directory '" ++ v.path ++ "'") r, s')

/-- Embeds `VPath::metadata`; the context string keeps the source's wording
("Could get metadata for ..."). -/
def VPath.metadata {σ ρ ω : Type} (v : VPath σ ρ ω) (s : σ) :
    Except VfsError VMetadata × σ :=
  match v.fs.metadata s v.path with
  | (r, s') => (with_context (fun _ => "Could get metadata for '" ++ v.path ++ "'") r, s')

/-- Embeds `VPath::exists`: direct delegation with no context. -/
def VPath.exists_ {σ ρ ω : Type} (v : VPath σ ρ ω) (s : σ) : Bool :=
  v.fs.exists_ s v.path

/-- Embeds `VPath::create`: the root handle over a fresh backend, whose path
is the empty string, always returned as `Ok`. -/
def VPath.create {σ ρ ω : Type} (vfs : Backend σ ρ ω) : Except VfsError (VPath σ ρ ω) :=
  .ok (VPath.mk "" vfs)

/-- One primitive backend call, as recorded in the call trace of the composite
operations. -/
inductive PrimCall where
  | existsC (p : String)
  | readDirC (p : String)
  | createDirC (p : String)
  | metadataC (p : String)
  | removeFileC (p : String)
  | removeDirC (p : String)
deriving DecidableEq

/-- Embeds `str::find('/')` on a character list: the index of the first `'/'`,
or the length of the list when there is none (the `unwrap_or_else` default). -/
def findSlash : List Char → Nat
  | [] => 0
  | c :: cs => if c = '/' then 0 else findSlash cs + 1

/-- Embeds the loop of `VPath::create_dir_all`.  Each iteration computes
`end = path[pos..].find('/').map(|it| it + pos).unwrap_or(path.len())`, takes
the prefix `path[..end]`, checks `exists` and calls the backend's
`create_dir` directly (the source bypasses `VPath::create_dir`, so no context
frame is attached), propagating a create error immediately (`?`); it stops
when `end == path.len()` and otherwise continues at `end + 1`.  The result
also carries the trace of backend calls.  `none` models the panic of the
slice `path[pos..]` when `pos > path.len()` (which happens for the empty
path, where the loop starts at `pos = 1`). -/
def createDirAllLoop {σ ρ ω : Type} (B : Backend σ ρ ω) (path : List Char) (pos : Nat)
    (s : σ) : Option (Except VfsError Unit × σ × List PrimCall) :=
  if _hpos : pos ≤ path.length then
    let e := pos + findSlash (path.drop pos)
    let directory := String.mk (path.take e)
    let step : Except VfsError Unit × σ × List PrimCall :=
      if B.exists_ s directory then (.ok (), s, [.existsC directory])
      else
        match B.create_dir s directory with
        | (r, s') => (r, s', [.existsC directory, .createDirC directory])
    match step with
    | (.error err, s', t) => some (.error err, s', t)
    | (.ok _, s', t) =>
      if e = path.length then some (.ok (), s', t)
      else
        match createDirAllLoop B path (e + 1) s' with
        | none => none
        | some (r, s'', t') => some (r, s'', t ++ t')
  else none
termination_by path.length + 1 - pos
decreasing_by omega

/-- Embeds `VPath::create_dir_all`: the loop above started at `pos = 1` on the
handle's path. -/
def VPath.create_dir_all {σ ρ ω : Type} (v : VPath σ ρ ω) (s : σ) :
    Option (Except VfsError Unit × σ × List PrimCall) :=
  createDirAllLoop v.fs v.path.data 1 s

mutual

/-- Embeds `VPath::remove_dir_all` with a fuel bound on recursion depth
(`none` = fuel exhausted, modelling unbounded recursion): if the path does
not exist, succeed immediately; otherwise list the children through
`VPath::read_dir` (context-wrapped), process them in order, then call
`VPath::remove_dir` on the now-empty directory.  The first failing call
aborts the traversal and its (context-wrapped) error is returned.  The third
component is the trace of backend calls. -/
def removeDirAllFuel {σ ρ ω : Type} :
    Nat → VPath σ ρ ω → σ → Option (Except VfsError Unit × σ × List PrimCall)
  | 0, _, _ => none
  | fuel + 1, v, s =>
    if !v.exists_ s then some (.ok (), s, [.existsC v.path])
    else
      match v.read_dir s with
      | (.error e, s₁) => some (.error e, s₁, [.existsC v.path, .readDirC v.path])
      | (.ok children, s₁) =>
        match removeChildrenFuel fuel children s₁ with
        | none => none
        | some (.error e, s₂, t) => some (.error e, s₂, .existsC v.path :: .readDirC v.path :: t)
        | some (.ok _, s₂, t) =>
          match v.remove_dir s₂ with
          | (.error e, s₃) =>
            some (.error e, s₃, .existsC v.path :: .readDirC v.path :: (t ++ [.removeDirC v.path]))
          | (.ok _, s₃) =>
            some (.ok (), s₃, .existsC v.path :: .readDirC v.path :: (t ++ [.removeDirC v.path]))

/-- Embeds the `for child in self.read_dir()?` loop of `VPath::remove_dir_all`:
each child's `VPath::metadata` is inspected; a file child is removed with
`VPath::remove_file`, a directory child by recursing into
`remove_dir_all`; any error aborts the loop. -/
def removeChildrenFuel {σ ρ ω : Type} :
    Nat → List (VPath σ ρ ω) → σ → Option (Except VfsError Unit × σ × List PrimCall)
  | _, [], s => some (.ok (), s, [])
  | fuel, child :: rest, s =>
    match child.metadata s with
    | (.error e, s₁) => some (.error e, s₁, [.metadataC child.path])
    | (.ok md, s₁) =>
      match md.file_type with
      | .File =>
        match child.remove_file s₁ with
        | (.error e, s₂) => some (.error e, s₂, [.metadataC child.path, .removeFileC child.path])
        | (.ok _, s₂) =>
          match removeChildrenFuel fuel rest s₂ with
          | none => none
          | some (r, s₃, t) => some (r, s₃, .metadataC child.path :: .removeFileC child.path :: t)
      | .Directory =>
        match removeDirAllFuel fuel child s₁ with
        | none => none
        | some (.error e, s₂, t) => some (.error e, s₂, .metadataC child.path :: t)
        | some (.ok _, s₂, t) =>
          match removeChildrenFuel fuel rest s₂ with
          | none => none
          | some (r, s₃, t') => some (r, s₃, .metadataC child.path :: (t ++ t'))

end

/-- Forgets the call trace of a composite result, keeping outcome and final
state. -/
def stripTrace {σ : Type} :
    Option (Except VfsError Unit × σ × List PrimCall) → Option (Except VfsError Unit × σ)
  | none => none
  | some (r, s, _) => some (r, s)

/-- Modelled from the spec (§4.3): the list of cut positions of
`create_dir_all`'s left-to-right walk, characterised independently of the
loop: every index of a `'/'` at position at least 1 (position 0 is skipped,
the walk starts after the handle's leading separator), in increasing order,
followed by the full length. -/
def filterEnds (path : List Char) (pos : Nat) : List Nat :=
  ((List.range path.length).filter
    (fun i => decide (pos ≤ i) && (path.getD i ' ' == '/'))) ++ [path.length]

/-- Modelled from the spec (§4.3): the accumulated `'/'`-separated prefixes of
a path that `create_dir_all` walks, left to right. -/
def prefixesOf (path : List Char) : List String :=
  (filterEnds path 1).map (fun i => String.mk (path.take i))

/-- Modelled from the spec (§4.3): for each accumulated prefix in turn, if
`exists(prefix)` is false call `create_dir(prefix)` and stop at the first
failure; when no `create_dir` fails, return success.  The trace records the
`exists` checks and `create_dir` calls. -/
def createDirsSpec {σ ρ ω : Type} (B : Backend σ ρ ω) :
    List String → σ → Except VfsError Unit × σ × List PrimCall
  | [], s => (.ok (), s, [])
  | d :: rest, s =>
    if B.exists_ s d then
      match createDirsSpec B rest s with
      | (r, s', t) => (r, s', .existsC d :: t)
    else
      match B.create_dir s d with
      | (.error e, s') => (.error e, s', [.existsC d, .createDirC d])
      | (.ok _, s') =>
        match createDirsSpec B rest s' with
        | (r, s'', t) => (r, s'', .existsC d :: .createDirC d :: t)

/-- The cut positions as the loop itself discovers them: the next `'/'` at or
after `pos` (or the end), then recursively the later ones.  Bridges the loop
to `filterEnds`. -/
def slashEndsFrom (path : List Char) (pos : Nat) : List Nat :=
  let e := pos + findSlash (path.drop pos)
  if e < path.length then e :: slashEndsFrom path (e + 1) else [path.length]
termination_by path.length + 1 - pos
decreasing_by omega

mutual

/-- Modelled from the spec (§4.3): `remove_dir_all(path)` returns success
immediately when `exists(path)` is false; otherwise it lists the immediate
children via `read_dir`, processes them in order, and finally calls
`remove_dir(path)` on the now-empty directory; the first failing call aborts
the traversal and its error is returned. -/
def removeDirAllSpec {σ ρ ω : Type} :
    Nat → VPath σ ρ ω → σ → Option (Except VfsError Unit × σ)
  | 0, _, _ => none
  | fuel + 1, v, s =>
    if v.exists_ s then
      match v.read_dir s with
      | (.error e, s₁) => some (.error e, s₁)
      | (.ok children, s₁) =>
        (removeChildrenSpec fuel children s₁).bind
          (fun res =>
            match res with
            | (.error e, s₂) => some (.error e, s₂)
            | (.ok _, s₂) =>
              match v.remove_dir s₂ with
              | (r, s₃) => some (r, s₃))
    else some (.ok (), s)

/-- Modelled from the spec (§4.3): for each child in turn, inspect its
metadata and recurse into `remove_dir_all` if it is a directory or call
`remove_file` if it is a file; the first failure aborts the remaining
children. -/
def removeChildrenSpec {σ ρ ω : Type} :
    Nat → List (VPath σ ρ ω) → σ → Option (Except VfsError Unit × σ)
  | _, [], s => some (.ok (), s)
  | fuel, child :: rest, s =>
    match child.metadata s with
    | (.error e, s₁) => some (.error e, s₁)
    | (.ok md, s₁) =>
      let step : Option (Except VfsError Unit × σ) :=
        match md.file_type with
        | .Directory => removeDirAllSpec fuel child s₁
        | .File => match child.remove_file s₁ with | (r, s₂) => some (r, s₂)
      step.bind
        (fun res =>
          match res with
          | (.error e, s₂) => some (.error e, s₂)
          | (.ok _, s₂) => removeChildrenSpec fuel rest s₂)

end

/-- The facts of the backend capability contract (§4.2) about `create_dir`
that the composite-layer claims rely on: a successful `create_dir` makes its
path exist, and never removes an existing path. -/
structure CreateDirContract {σ ρ ω : Type} (B : Backend σ ρ ω) : Prop where
  exists_after_create : ∀ s d s', B.create_dir s d = (.ok (), s') → B.exists_ s' d = true
  create_preserves : ∀ s d s' q, B.create_dir s d = (.ok (), s') →
    B.exists_ s q = true → B.exists_ s' q = true

/-- The fact of the backend capability contract (§4.2) about `remove_dir`
that the composite-layer claims rely on: after a successful `remove_dir` the
removed path no longer exists. -/
structure RemoveDirContract {σ ρ ω : Type} (B : Backend σ ρ ω) : Prop where
  removed : ∀ s d s', B.remove_dir s d = (.ok (), s') → B.exists_ s' d = false

/-- Modelled from the spec (§4.4; the in-memory backend module `memory` is not
among the sources): the file-content store of the in-memory backend, a map
from path to growable byte buffer. -/
structure MemState where
  files : List (String × List Nat)
deriving DecidableEq

/-- Modelled from the spec (§4.4): look up the byte buffer of a file. -/
def memGet (s : MemState) (p : String) : Option (List Nat) :=
  (s.files.find? (fun kv => kv.1 == p)).map (fun kv => kv.2)

/-- Modelled from the spec (§4.4): replace (or insert) the byte buffer bound
to a path. -/
def memSet (s : MemState) (p : String) (buf : List Nat) : MemState :=
  MemState.mk ((p, buf) :: s.files.filter (fun kv => kv.1 != p))

/-- Modelled from the spec (§4.4): an open reader is an independent, immutable
snapshot of the file's bytes captured at open time, plus a cursor. -/
structure MemReader where
  content : List Nat
  pos : Nat
deriving DecidableEq

/-- Modelled from the spec (§4.4): an open writer is an exclusive cursor bound
to one file's buffer, identified here by the file's path. -/
structure MemWriter where
  wpath : String
deriving DecidableEq

/-- Modelled from the spec (§4.2, §4.4): `open_file` copies the current byte
buffer into a fresh snapshot reader positioned at the start; it fails with
`FileNotFound` when the path has no file. -/
def memOpenFile (s : MemState) (p : String) : Except VfsError MemReader :=
  match memGet s p with
  | some buf => .ok (MemReader.mk buf 0)
  | none => .error (.FileNotFound p)

/-- Modelled from the spec (§4.4): reading from an open reader consults only
the reader's own snapshot, never the backend's current state
("snapshot-on-open" isolation); this reads the remaining bytes. -/
def memReadAll (_current : MemState) (r : MemReader) : List Nat :=
  r.content.drop r.pos

/-- Modelled from the spec (§4.2, §4.4): `create_file` resets the buffer at
the path to empty (creating the file if absent) and hands back an exclusive
writer bound to it. -/
def memCreateFile (s : MemState) (p : String) : MemWriter × MemState :=
  (MemWriter.mk p, memSet s p [])

/-- Modelled from the spec (§4.2, §4.4): `append_file` keeps the existing
buffer (creating an empty file if absent) and hands back an exclusive writer
positioned at end-of-content. -/
def memAppendFile (s : MemState) (p : String) : MemWriter × MemState :=
  match memGet s p with
  | some _ => (MemWriter.mk p, s)
  | none => (MemWriter.mk p, memSet s p [])

/-- Modelled from the spec (§4.4): each write call commits its bytes into the
shared buffer immediately, appending at the end. -/
def memWrite (w : MemWriter) (bytes : List Nat) (s : MemState) : MemState :=
  memSet s w.wpath (((memGet s w.wpath).getD []) ++ bytes)

/-- Modelled from the spec (§4.2): `remove_file` removes the file, failing
with `FileNotFound` when it is absent. -/
def memRemoveFile (s : MemState) (p : String) : Except VfsError Unit × MemState :=
  match memGet s p with
  | some _ => (.ok (), MemState.mk (s.files.filter (fun kv => kv.1 != p)))
  | none => (.error (.FileNotFound p), s)

/-- A mutation of the in-memory file store committed after a reader was
opened: truncate-and-write through a `create_file` writer, write through an
`append_file` writer, or remove the file. -/
inductive MemOp where
  | createWrite (p : String) (bytes : List Nat)
  | appendWrite (p : String) (bytes : List Nat)
  | removeF (p : String)

/-- Applies one later mutation to the store. -/
def applyMemOp (s : MemState) : MemOp → MemState
  | .createWrite p bytes =>
    match memCreateFile s p with
    | (w, s₁) => memWrite w bytes s₁
  | .appendWrite p bytes =>
    match memAppendFile s p with
    | (w, s₁) => memWrite w bytes s₁
  | .removeF p => (memRemoveFile s p).2

/-- Applies a sequence of later mutations to the store, oldest first. -/
def applyMemOps (s : MemState) (ops : List MemOp) : MemState :=
  ops.foldl applyMemOp s

/-- A concrete backend over a list of existing directory paths, used to
instantiate the generic theorems: `exists_` is membership, `create_dir`
inserts a missing path and rejects a present one, `remove_dir` removes a
present path, `read_dir` lists no children, and the file primitives fail. -/
def BList : Backend (List String) Unit Unit where
  read_dir := fun s _ => (.ok [], s)
  create_dir := fun s d => if d ∈ s then (.error (.Other "already exists"), s) else (.ok (), d :: s)
  open_file := fun s _ => (.error (.Other "no files"), s)
  create_file := fun s _ => (.error (.Other "no files"), s)
  append_file := fun s _ => (.error (.Other "no files"), s)
  metadata := fun s p => (.error (.FileNotFound p), s)
  exists_ := fun s p => decide (p ∈ s)
  remove_file := fun s _ => (.error (.Other "no files"), s)
  remove_dir := fun s p =>
    if p ∈ s then (.ok (), s.filter (fun q => decide (q ≠ p))) else (.error (.FileNotFound p), s)

/-- A concrete backend every primitive of which fails with the same leaf
error, used to instantiate the context-wrapping theorems. -/
def BErr : Backend Unit Unit Unit where
  read_dir := fun s _ => (.error (.Other "boom"), s)
  create_dir := fun s _ => (.error (.Other "boom"), s)
  open_file := fun s _ => (.error (.Other "boom"), s)
  create_file := fun s _ => (.error (.Other "boom"), s)
  append_file := fun s _ => (.error (.Other "boom"), s)
  metadata := fun s _ => (.error (.IoError "io"), s)
  exists_ := fun _ _ => false
  remove_file := fun s _ => (.error (.Other "boom"), s)
  remove_dir := fun s _ => (.error (.Other "boom"), s)

/-- A concrete backend whose `read_dir` lists two children, used to
instantiate the `read_dir` child-path theorem. -/
def BTwo : Backend Unit Unit Unit where
  read_dir := fun s _ => (.ok ["x", "y"], s)
  create_dir := fun s _ => (.ok (), s)
  open_file := fun s _ => (.error (.Other "no"), s)
  create_file := fun s _ => (.error (.Other "no"), s)
  append_file := fun s _ => (.error (.Other "no"), s)
  metadata := fun s _ => (.error (.Other "no"), s)
  exists_ := fun _ _ => true
  remove_file := fun s _ => (.ok (), s)
  remove_dir := fun s _ => (.ok (), s)

theorem findSlash_le (l : List Char) : findSlash l ≤ l.length := by
  induction l with
  | nil => simp [findSlash]
  | cons c cs ih =>
    simp only [findSlash, List.length_cons]
    split
    · omega
    · omega

theorem findSlash_before (l : List Char) (j : Nat) (hj : j < findSlash l) :
    l.getD j ' ' ≠ '/' := by
  induction l generalizing j with
  | nil => simp [findSlash] at hj
  | cons c cs ih =>
    simp only [findSlash] at hj
    split at hj
    · omega
    · cases j with
      | zero => simpa using (by assumption : ¬c = '/')
      | succ j' =>
        simp only [List.getD_cons_succ]
        exact ih j' (by omega)

theorem findSlash_at (l : List Char) (h : findSlash l < l.length) :
    l.getD (findSlash l) ' ' = '/' := by
  induction l with
  | nil => simp [findSlash] at h
  | cons c cs ih =>
    by_cases hc : c = '/'
    · simp [findSlash, hc]
    · simp only [findSlash, if_neg hc, List.length_cons] at h ⊢
      simp only [List.getD_cons_succ]
      exact ih (by omega)

theorem getD_drop (l : List Char) (pos k : Nat) :
    (l.drop pos).getD k ' ' = l.getD (pos + k) ' ' := by
  induction pos generalizing l with
  | zero => simp
  | succ p ih =>
    cases l with
    | nil => simp
    | cons c cs =>
      have : p + 1 + k = (p + k) + 1 := by omega
      simp only [List.drop_succ_cons, this, List.getD_cons_succ]
      exact ih cs

theorem filter_range_congr_lower (P : Nat → Bool) (n pos e : Nat) (hpe : pos ≤ e)
    (hmid : ∀ i, pos ≤ i → i < e → P i = false) :
    (List.range n).filter (fun i => decide (pos ≤ i) && P i) =
      (List.range n).filter (fun i => decide (e ≤ i) && P i) := by
  apply List.filter_congr
  intro i _
  by_cases h1 : i < pos
  · have ha : ¬pos ≤ i := by omega
    have hb : ¬e ≤ i := by omega
    simp [ha, hb]
  · by_cases h2 : i < e
    · have hb : ¬e ≤ i := by omega
      simp [hmid i (by omega) h2, hb]
    · have ha : pos ≤ i := by omega
      have hb : e ≤ i := by omega
      simp [ha, hb]

theorem filter_range_cons (P : Nat → Bool) (n e : Nat) (hen : e < n) (hPe : P e = true) :
    (List.range n).filter (fun i => decide (e ≤ i) && P i) =
      e :: (List.range n).filter (fun i => decide (e + 1 ≤ i) && P i) := by
  induction n with
  | zero => omega
  | succ m ih =>
    rw [List.range_succ, List.filter_append, List.filter_append]
    have hfil : ∀ q : Nat → Bool, List.filter q [m] = if q m then [m] else [] := by
      intro q
      simp [List.filter]
      split <;> simp_all
    by_cases hem : e < m
    · rw [ih hem, hfil, hfil]
      have hc : (decide (e ≤ m) && P m) = (decide (e + 1 ≤ m) && P m) := by
        have ha : e ≤ m := by omega
        have hb : e + 1 ≤ m := by omega
        simp [ha, hb]
      rw [hc, List.cons_append]
    · have hem' : e = m := by omega
      subst hem'
      have h1 : (List.range e).filter (fun i => decide (e ≤ i) && P i) = [] := by
        rw [List.filter_eq_nil_iff]
        intro a ha
        simp only [List.mem_range] at ha
        simp [Nat.not_le.mpr ha]
      have h2 : (List.range e).filter (fun i => decide (e + 1 ≤ i) && P i) = [] := by
        rw [List.filter_eq_nil_iff]
        intro a ha
        simp only [List.mem_range] at ha
        have : ¬e + 1 ≤ a := by omega
        simp [this]
      rw [h1, h2, hfil, hfil]
      have ha : e ≤ e := Nat.le_refl e
      have hb : ¬e + 1 ≤ e := by omega
      simp [ha, hb, hPe]

theorem slashEndsFrom_eq_filterEnds (path : List Char) :
    ∀ (n pos : Nat), path.length + 1 - pos = n → pos ≤ path.length →
    slashEndsFrom path pos = filterEnds path pos := by
  intro n
  induction n using Nat.strong_induction_on with
  | _ n ih =>
    intro pos hn hpos
    have hfle : findSlash (path.drop pos) ≤ path.length - pos := by
      have := findSlash_le (path.drop pos)
      simpa [List.length_drop] using this
    unfold slashEndsFrom
    by_cases hlt : pos + findSlash (path.drop pos) < path.length
    · rw [if_pos hlt]
      have hrec : slashEndsFrom path (pos + findSlash (path.drop pos) + 1) =
          filterEnds path (pos + findSlash (path.drop pos) + 1) := by
        apply ih (path.length + 1 - (pos + findSlash (path.drop pos) + 1))
        · omega
        · rfl
        · omega
      rw [hrec]
      unfold filterEnds
      have hcut : (List.range path.length).filter
          (fun i => decide (pos ≤ i) && (path.getD i ' ' == '/')) =
          (pos + findSlash (path.drop pos)) ::
            (List.range path.length).filter
              (fun i => decide (pos + findSlash (path.drop pos) + 1 ≤ i) &&
                (path.getD i ' ' == '/')) := by
        have hstep1 : (List.range path.length).filter
            (fun i => decide (pos ≤ i) && (path.getD i ' ' == '/')) =
            (List.range path.length).filter
              (fun i => decide (pos + findSlash (path.drop pos) ≤ i) &&
                (path.getD i ' ' == '/')) := by
          apply filter_range_congr_lower
          · omega
          · intro i hpi hie
            have hlt' : i - pos < findSlash (path.drop pos) := by omega
            have hne : (path.drop pos).getD (i - pos) ' ' ≠ '/' :=
              findSlash_before (path.drop pos) (i - pos) hlt'
            rw [getD_drop] at hne
            have heq : pos + (i - pos) = i := by omega
            rw [heq] at hne
            simpa using hne
        rw [hstep1]
        apply filter_range_cons
        · exact hlt
        · have hfs : findSlash (path.drop pos) < (path.drop pos).length := by
            simp only [List.length_drop]
            omega
          have := findSlash_at (path.drop pos) hfs
          rw [getD_drop] at this
          simpa using this
      rw [hcut, List.cons_append]
    · have hend : pos + findSlash (path.drop pos) = path.length := by omega
      rw [if_neg hlt]
      unfold filterEnds
      have hnil : (List.range path.length).filter
          (fun i => decide (pos ≤ i) && (path.getD i ' ' == '/')) = [] := by
        rw [List.filter_eq_nil_iff]
        intro i hi
        simp only [List.mem_range] at hi
        by_cases hpi : pos ≤ i
        · have hlt' : i - pos < findSlash (path.drop pos) := by omega
          have hne : (path.drop pos).getD (i - pos) ' ' ≠ '/' :=
            findSlash_before (path.drop pos) (i - pos) hlt'
          rw [getD_drop] at hne
          have heq : pos + (i - pos) = i := by omega
          rw [heq] at hne
          simp only [Bool.and_eq_true, decide_eq_true_eq, beq_iff_eq]
          exact fun hh => hne hh.2
        · simp [hpi]
      rw [hnil, List.nil_append]

theorem createDirAllLoop_eq_spec {σ ρ ω : Type} (B : Backend σ ρ ω) (path : List Char) :
    ∀ (n pos : Nat) (s : σ), path.length + 1 - pos = n → pos ≤ path.length →
    createDirAllLoop B path pos s =
      some (createDirsSpec B
        ((slashEndsFrom path pos).map (fun i => String.mk (path.take i))) s) := by
  intro n
  induction n using Nat.strong_induction_on with
  | _ n ih =>
    intro pos s hn hpos
    have hfle : findSlash (path.drop pos) ≤ path.length - pos := by
      have := findSlash_le (path.drop pos)
      simpa [List.length_drop] using this
    unfold createDirAllLoop
    rw [dif_pos hpos]
    unfold slashEndsFrom
    by_cases hlt : pos + findSlash (path.drop pos) < path.length
    · rw [if_pos hlt]
      have hne : ¬(pos + findSlash (path.drop pos) = path.length) := by omega
      simp only [List.map_cons]
      by_cases hx : B.exists_ s (String.mk (path.take (pos + findSlash (path.drop pos))))
      · have hrec := ih (path.length + 1 - (pos + findSlash (path.drop pos) + 1)) (by omega)
          (pos + findSlash (path.drop pos) + 1) s rfl (by omega)
        rcases hsp : createDirsSpec B
            ((slashEndsFrom path (pos + findSlash (path.drop pos) + 1)).map
              (fun i => String.mk (path.take i))) s with ⟨r, s', t⟩
        simp [createDirsSpec, hx, hne, hrec, hsp]
      · rcases hcd : B.create_dir s (String.mk (path.take (pos + findSlash (path.drop pos))))
          with ⟨r₀, s₀⟩
        cases r₀ with
        | error e₀ =>
          simp [createDirsSpec, hx, hne, hcd]
        | ok u =>
          have hrec := ih (path.length + 1 - (pos + findSlash (path.drop pos) + 1)) (by omega)
            (pos + findSlash (path.drop pos) + 1) s₀ rfl (by omega)
          rcases hsp : createDirsSpec B
              ((slashEndsFrom path (pos + findSlash (path.drop pos) + 1)).map
                (fun i => String.mk (path.take i))) s₀ with ⟨r, s', t⟩
          simp [createDirsSpec, hx, hne, hcd, hrec, hsp]
    · have hEnd : pos + findSlash (path.drop pos) = path.length := by omega
      rw [if_neg hlt, hEnd]
      simp only [List.map_cons, List.map_nil, List.take_length]
      by_cases hx : B.exists_ s (String.mk path)
      · simp [createDirsSpec, hx]
      · rcases hcd : B.create_dir s (String.mk path) with ⟨r₀, s₀⟩
        cases r₀ with
        | error e₀ => simp [createDirsSpec, hx, hcd]
        | ok u => simp [createDirsSpec, hx, hcd]

theorem create_dir_all_eval {σ ρ ω : Type} (v : VPath σ ρ ω) (s : σ) (h : v.path ≠ "") :
    v.create_dir_all s = some (createDirsSpec v.fs (prefixesOf v.path.data) s) := by
  have hd : v.path.data ≠ [] := by
    intro hempty
    apply h
    have hmk : v.path = String.mk v.path.data := rfl
    rw [hmk, hempty]
  have hlen : 1 ≤ v.path.data.length := by
    cases hq : v.path.data with
    | nil => exact absurd hq hd
    | cons a l => simp
  unfold VPath.create_dir_all prefixesOf
  rw [createDirAllLoop_eq_spec v.fs v.path.data (v.path.data.length + 1 - 1) 1 s rfl hlen]
  rw [slashEndsFrom_eq_filterEnds v.path.data (v.path.data.length + 1 - 1) 1 rfl hlen]

theorem createDirsSpec_preserves {σ ρ ω : Type} {B : Backend σ ρ ω}
    (hB : CreateDirContract B) :
    ∀ (ds : List String) (s s' : σ) (t : List PrimCall),
    createDirsSpec B ds s = (.ok (), s', t) →
    ∀ q, B.exists_ s q = true → B.exists_ s' q = true := by
  intro ds
  induction ds with
  | nil =>
    intro s s' t h q hq
    simp [createDirsSpec] at h
    rw [← h.1]
    exact hq
  | cons d rest ih =>
    intro s s' t h q hq
    by_cases hx : B.exists_ s d
    · rcases hsp : createDirsSpec B rest s with ⟨r, s₁, t₁⟩
      simp [createDirsSpec, hx, hsp] at h
      exact h.2.1 ▸ ih s s₁ t₁ (by rw [hsp, h.1]) q hq
    · rcases hcd : B.create_dir s d with ⟨r₀, s₀⟩
      cases r₀ with
      | error e₀ =>
        simp [createDirsSpec, hx, hcd] at h
      | ok u =>
        cases u
        rcases hsp : createDirsSpec B rest s₀ with ⟨r, s₁, t₁⟩
        simp [createDirsSpec, hx, hcd, hsp] at h
        have hq₀ : B.exists_ s₀ q = true := hB.create_preserves s d s₀ q hcd hq
        exact h.2.1 ▸ ih s₀ s₁ t₁ (by rw [hsp, h.1]) q hq₀

theorem createDirsSpec_all_exist {σ ρ ω : Type} {B : Backend σ ρ ω}
    (hB : CreateDirContract B) :
    ∀ (ds : List String) (s s' : σ) (t : List PrimCall),
    createDirsSpec B ds s = (.ok (), s', t) →
    ∀ d ∈ ds, B.exists_ s' d = true := by
  intro ds
  induction ds with
  | nil =>
    intro s s' t _ d hd
    simp at hd
  | cons d rest ih =>
    intro s s' t h d' hd'
    by_cases hx : B.exists_ s d
    · rcases hsp : createDirsSpec B rest s with ⟨r, s₁, t₁⟩
      simp [createDirsSpec, hx, hsp] at h
      have hrun : createDirsSpec B rest s = (.ok (), s', t₁) := by rw [hsp, h.1, h.2.1]
      rcases List.mem_cons.mp hd' with heq | hmem
      · subst heq
        exact createDirsSpec_preserves hB rest s s' t₁ hrun d' hx
      · exact ih s s' t₁ hrun d' hmem
    · rcases hcd : B.create_dir s d with ⟨r₀, s₀⟩
      cases r₀ with
      | error e₀ =>
        simp [createDirsSpec, hx, hcd] at h
      | ok u =>
        cases u
        rcases hsp : createDirsSpec B rest s₀ with ⟨r, s₁, t₁⟩
        simp [createDirsSpec, hx, hcd, hsp] at h
        have hrun : createDirsSpec B rest s₀ = (.ok (), s', t₁) := by rw [hsp, h.1, h.2.1]
        rcases List.mem_cons.mp hd' with heq | hmem
        · subst heq
          have hd₀ : B.exists_ s₀ d' = true := hB.exists_after_create s d' s₀ hcd
          exact createDirsSpec_preserves hB rest s₀ s' t₁ hrun d' hd₀
        · exact ih s₀ s' t₁ hrun d' hmem

theorem createDirsSpec_all_true {σ ρ ω : Type} (B : Backend σ ρ ω) :
    ∀ (ds : List String) (s : σ), (∀ d ∈ ds, B.exists_ s d = true) →
    createDirsSpec B ds s = (.ok (), s, ds.map PrimCall.existsC) := by
  intro ds
  induction ds with
  | nil =>
    intro s _
    simp [createDirsSpec]
  | cons d rest ih =>
    intro s hall
    have hx : B.exists_ s d = true := hall d (List.mem_cons_self d rest)
    have hrest := ih s (fun q hq => hall q (List.mem_cons_of_mem d hq))
    simp [createDirsSpec, hx, hrest]

theorem createDirsSpec_error {σ ρ ω : Type} (B : Backend σ ρ ω) :
    ∀ (ds : List String) (s : σ) (e : VfsError) (s' : σ) (t : List PrimCall),
    createDirsSpec B ds s = (.error e, s', t) →
    ∃ d s₀, B.create_dir s₀ d = (.error e, s') := by
  intro ds
  induction ds with
  | nil =>
    intro s e s' t h
    simp [createDirsSpec] at h
  | cons d rest ih =>
    intro s e s' t h
    by_cases hx : B.exists_ s d
    · rcases hsp : createDirsSpec B rest s with ⟨r, s₁, t₁⟩
      simp [createDirsSpec, hx, hsp] at h
      exact ih s e s' t₁ (by rw [hsp, h.1, h.2.1]) 
    · rcases hcd : B.create_dir s d with ⟨r₀, s₀⟩
      cases r₀ with
      | error e₀ =>
        simp [createDirsSpec, hx, hcd] at h
        exact ⟨d, s, by rw [hcd, h.1, h.2.1]⟩
      | ok u =>
        cases u
        rcases hsp : createDirsSpec B rest s₀ with ⟨r, s₁, t₁⟩
        simp [createDirsSpec, hx, hcd, hsp] at h
        exact ih s₀ e s' t₁ (by rw [hsp, h.1, h.2.1])

theorem with_context_ok {α : Type} (f : Unit → String) (r : Except VfsError α) (a : α) :
    with_context f r = .ok a ↔ r = .ok a := by
  cases r <;> simp [with_context, Except.mapError]

theorem removeDirAll_eq_spec {σ ρ ω : Type} :
    ∀ fuel : Nat,
      (∀ (v : VPath σ ρ ω) (s : σ),
        stripTrace (removeDirAllFuel fuel v s) = removeDirAllSpec fuel v s) ∧
      (∀ (l : List (VPath σ ρ ω)) (s : σ),
        stripTrace (removeChildrenFuel fuel l s) = removeChildrenSpec fuel l s) := by
  intro fuel
  induction fuel with
  | zero =>
    have hrda : ∀ (v : VPath σ ρ ω) (s : σ),
        stripTrace (removeDirAllFuel 0 v s) = removeDirAllSpec 0 v s := by
      intro v s
      simp [removeDirAllFuel, removeDirAllSpec, stripTrace]
    refine ⟨hrda, ?_⟩
    intro l
    induction l with
    | nil =>
      intro s
      simp [removeChildrenFuel, removeChildrenSpec, stripTrace]
    | cons child rest ihl =>
      intro s
      simp only [removeChildrenFuel, removeChildrenSpec]
      rcases hmd : child.metadata s with ⟨r₁, s₁⟩
      cases r₁ with
      | error e => simp [hmd, stripTrace]
      | ok md =>
        cases hft : md.file_type with
        | File =>
          rcases hrf : child.remove_file s₁ with ⟨r₂, s₂⟩
          cases r₂ with
          | error e => simp [hmd, hft, hrf, stripTrace, Option.bind]
          | ok u =>
            cases u
            have h2 := ihl s₂
            rcases hrc : removeChildrenFuel 0 rest s₂ with _ | ⟨r₃, s₃, t₃⟩
            · rw [hrc] at h2
              simp only [stripTrace] at h2
              simp [hmd, hft, hrf, hrc, stripTrace, Option.bind, ← h2]
            · rw [hrc] at h2
              simp only [stripTrace] at h2
              simp [hmd, hft, hrf, hrc, stripTrace, Option.bind, ← h2]
        | Directory =>
          have hd := hrda child s₁
          rcases hda : removeDirAllFuel 0 child s₁ with _ | ⟨r₂, s₂, t₂⟩
          · rw [hda] at hd
            simp only [stripTrace] at hd
            simp [hmd, hft, hda, stripTrace, Option.bind, ← hd]
          · rw [hda] at hd
            simp only [stripTrace] at hd
            cases r₂ with
            | error e => simp [hmd, hft, hda, stripTrace, Option.bind, ← hd]
            | ok u =>
              cases u
              have h2 := ihl s₂
              rcases hrc : removeChildrenFuel 0 rest s₂ with _ | ⟨r₃, s₃, t₃⟩
              · rw [hrc] at h2
                simp only [stripTrace] at h2
                simp [hmd, hft, hda, hrc, stripTrace, Option.bind, ← hd, ← h2]
              · rw [hrc] at h2
                simp only [stripTrace] at h2
                simp [hmd, hft, hda, hrc, stripTrace, Option.bind, ← hd, ← h2]
  | succ f ihf =>
    have hrda : ∀ (v : VPath σ ρ ω) (s : σ),
        stripTrace (removeDirAllFuel (f + 1) v s) = removeDirAllSpec (f + 1) v s := by
      intro v s
      simp only [removeDirAllFuel, removeDirAllSpec]
      cases hx : v.exists_ s with
      | false => simp [hx, stripTrace]
      | true =>
        rcases hrd : v.read_dir s with ⟨r₁, s₁⟩
        cases r₁ with
        | error e => simp [hx, hrd, stripTrace]
        | ok children =>
          have hch := ihf.2 children s₁
          rcases hrc : removeChildrenFuel f children s₁ with _ | ⟨r₂, s₂, t₂⟩
          · rw [hrc] at hch
            simp only [stripTrace] at hch
            simp [hx, hrd, hrc, stripTrace, Option.bind, ← hch]
          · rw [hrc] at hch
            simp only [stripTrace] at hch
            cases r₂ with
            | error e => simp [hx, hrd, hrc, stripTrace, Option.bind, ← hch]
            | ok u =>
              cases u
              rcases hrm : v.remove_dir s₂ with ⟨r₃, s₃⟩
              cases r₃ with
              | error e => simp [hx, hrd, hrc, hrm, stripTrace, Option.bind, ← hch]
              | ok u₃ =>
                cases u₃
                simp [hx, hrd, hrc, hrm, stripTrace, Option.bind, ← hch]
    refine ⟨hrda, ?_⟩
    intro l
    induction l with
    | nil =>
      intro s
      simp [removeChildrenFuel, removeChildrenSpec, stripTrace]
    | cons child rest ihl =>
      intro s
      simp only [removeChildrenFuel, removeChildrenSpec]
      rcases hmd : child.metadata s with ⟨r₁, s₁⟩
      cases r₁ with
      | error e => simp [hmd, stripTrace]
      | ok md =>
        cases hft : md.file_type with
        | File =>
          rcases hrf : child.remove_file s₁ with ⟨r₂, s₂⟩
          cases r₂ with
          | error e => simp [hmd, hft, hrf, stripTrace, Option.bind]
          | ok u =>
            cases u
            have h2 := ihl s₂
            rcases hrc : removeChildrenFuel (f + 1) rest s₂ with _ | ⟨r₃, s₃, t₃⟩
            · rw [hrc] at h2
              simp only [stripTrace] at h2
              simp [hmd, hft, hrf, hrc, stripTrace, Option.bind, ← h2]
            · rw [hrc] at h2
              simp only [stripTrace] at h2
              simp [hmd, hft, hrf, hrc, stripTrace, Option.bind, ← h2]
        | Directory =>
          have hd := hrda child s₁
          rcases hda : removeDirAllFuel (f + 1) child s₁ with _ | ⟨r₂, s₂, t₂⟩
          · rw [hda] at hd
            simp only [stripTrace] at hd
            simp [hmd, hft, hda, stripTrace, Option.bind, ← hd]
          · rw [hda] at hd
            simp only [stripTrace] at hd
            cases r₂ with
            | error e => simp [hmd, hft, hda, stripTrace, Option.bind, ← hd]
            | ok u =>
              cases u
              have h2 := ihl s₂
              rcases hrc : removeChildrenFuel (f + 1) rest s₂ with _ | ⟨r₃, s₃, t₃⟩
              · rw [hrc] at h2
                simp only [stripTrace] at h2
                simp [hmd, hft, hda, hrc, stripTrace, Option.bind, ← hd, ← h2]
              · rw [hrc] at h2
                simp only [stripTrace] at h2
                simp [hmd, hft, hda, hrc, stripTrace, Option.bind, ← hd, ← h2]

theorem removeDirAllFuel_ok_not_exists {σ ρ ω : Type} (v : VPath σ ρ ω)
    (hc : RemoveDirContract v.fs) :
    ∀ (fuel : Nat) (s s' : σ) (t : List PrimCall),
    removeDirAllFuel fuel v s = some (.ok (), s', t) →
    v.fs.exists_ s' v.path = false := by
  intro fuel s s' t h
  cases fuel with
  | zero => simp [removeDirAllFuel] at h
  | succ f =>
    simp only [removeDirAllFuel] at h
    cases hx : v.exists_ s with
    | false =>
      simp [hx] at h
      obtain ⟨hs, -⟩ := h
      rw [← hs]
      exact hx
    | true =>
      simp only [hx, Bool.not_true, Bool.false_eq_true, if_false] at h
      rcases hrd : v.read_dir s with ⟨r₁, s₁⟩
      cases r₁ with
      | error e => simp [hrd] at h
      | ok children =>
        simp only [hrd] at h
        rcases hrc : removeChildrenFuel f children s₁ with _ | ⟨r₂, s₂, t₂⟩
        · simp [hrc] at h
        · simp only [hrc] at h
          cases r₂ with
          | error e => simp at h
          | ok u =>
            cases u
            rcases hrm : v.remove_dir s₂ with ⟨r₃, s₃⟩
            cases r₃ with
            | error e => simp [hrm] at h
            | ok u₃ =>
              cases u₃
              simp [hrm] at h
              obtain ⟨hs₃, -⟩ := h
              rcases hb : v.fs.remove_dir s₂ v.path with ⟨rb, sb⟩
              have hrm2 : (with_context
                  (fun _ => "Could not remove directory '" ++ v.path ++ "'") rb, sb) =
                  ((Except.ok () : Except VfsError Unit), s₃) := by
                rw [← hrm]
                simp [VPath.remove_dir, hb]
              have hrb : rb = .ok () := by
                have h1 := congrArg Prod.fst hrm2
                simp only [] at h1
                exact (with_context_ok _ rb ()).mp h1
              have hsb : sb = s₃ := congrArg Prod.snd hrm2
              have hfin := hc.removed s₂ v.path sb (by rw [← hrb, ← hb])
              rw [hsb, hs₃] at hfin
              exact hfin

theorem memGet_memSet_self (s : MemState) (p : String) (buf : List Nat) :
    memGet (memSet s p buf) p = some buf := by
  simp [memGet, memSet, List.find?_cons_of_pos]

theorem memGet_after_remove (s : MemState) (p : String) :
    memGet (MemState.mk (s.files.filter (fun kv => kv.1 != p))) p = none := by
  have hf : (s.files.filter (fun kv => kv.1 != p)).find? (fun kv => kv.1 == p) = none := by
    rw [List.find?_eq_none]
    intro kv hkv
    have := (List.mem_filter.mp hkv).2
    simp only [bne_iff_ne, ne_eq] at this
    simp [this]
  simp [memGet, hf]

theorem BList_create_contract : CreateDirContract BList := by
  constructor
  · intro s d s' h
    simp only [BList] at h
    split at h
    · simp at h
    · simp only [Prod.mk.injEq] at h
      rw [← h.2]
      simp [BList]
  · intro s d s' q h hq
    simp only [BList] at h hq ⊢
    split at h
    · simp at h
    · simp only [Prod.mk.injEq] at h
      rw [← h.2]
      simp only [decide_eq_true_eq] at hq ⊢
      exact List.mem_cons_of_mem d hq

theorem BList_remove_contract : RemoveDirContract BList := by
  constructor
  intro s d s' h
  simp only [BList] at h ⊢
  split at h
  · simp only [Prod.mk.injEq] at h
    rw [← h.2]
    simp
  · simp at h

/-- Claim C6: wrapping a successful result with `with_context` is a no-op;
wrapping a failed result produces a `WithContext` error owning the original
cause (so the innermost error kind is unchanged and nothing is discarded);
displaying renders the chain outermost-first as `"{context}, cause: {cause}"`,
bottoming out at the leaf error's own message. -/
theorem c6_with_context_contract :
    ∀ (α : Type) (f : Unit → String) (v : α) (e : VfsError) (c p m i : String),
      with_context f (Except.ok v) = Except.ok v ∧
      with_context f (Except.error e : Except VfsError α) =
        Except.error (VfsError.WithContext (f ()) e) ∧
      (VfsError.WithContext (f ()) e).rootCause = e.rootCause ∧
      VfsError.display (VfsError.WithContext c e) = c ++ ", cause: " ++ e.display ∧
      VfsError.display (VfsError.FileNotFound p) =
        "the file or directory `" ++ p ++ "` could not be found" ∧
      VfsError.display (VfsError.Other m) = "other VFS error: " ++ m ∧
      VfsError.display (VfsError.IoError i) = "data store disconnected" := by
  intro α f v e c p m i
  exact ⟨rfl, rfl, rfl, rfl, rfl, rfl, rfl⟩

/-- Claim C7: every one of the eight fallible primitive delegations on a path
handle wraps a backend error in exactly one `WithContext` frame whose context
names the high-level operation and the handle's path, and whose cause is the
backend's error unchanged. -/
theorem c7_delegations_wrap_once :
    ∀ (σ ρ ω : Type) (B : Backend σ ρ ω) (p : String) (s : σ) (e : VfsError) (s' : σ),
      (B.read_dir s p = (.error e, s') →
        VPath.read_dir (VPath.mk p B) s =
          (.error (.WithContext ("Could not read directory '" ++ p ++ "'") e), s')) ∧
      (B.create_dir s p = (.error e, s') →
        VPath.create_dir (VPath.mk p B) s =
          (.error (.WithContext ("Could not create directory '" ++ p ++ "'") e), s')) ∧
      (B.open_file s p = (.error e, s') →
        VPath.open_file (VPath.mk p B) s =
          (.error (.WithContext ("Could not open file '" ++ p ++ "'") e), s')) ∧
      (B.create_file s p = (.error e, s') →
        VPath.create_file (VPath.mk p B) s =
          (.error (.WithContext ("Could not create file '" ++ p ++ "'") e), s')) ∧
      (B.append_file s p = (.error e, s') →
        VPath.append_file (VPath.mk p B) s =
          (.error (.WithContext ("Could not open file '" ++ p ++ "' for appending") e), s')) ∧
      (B.metadata s p = (.error e, s') →
        VPath.metadata (VPath.mk p B) s =
          (.error (.WithContext ("Could get metadata for '" ++ p ++ "'") e), s')) ∧
      (B.remove_file s p = (.error e, s') →
        VPath.remove_file (VPath.mk p B) s =
          (.error (.WithContext ("Could not remove file '" ++ p ++ "'") e), s')) ∧
      (B.remove_dir s p = (.error e, s') →
        VPath.remove_dir (VPath.mk p B) s =
          (.error (.WithContext ("Could not remove directory '" ++ p ++ "'") e), s')) := by
  intro σ ρ ω B p s e s'
  refine ⟨?_, ?_, ?_, ?_, ?_, ?_, ?_, ?_⟩
  · intro h
    simp [VPath.read_dir, h, with_context, Except.mapError, Except.map]
  · intro h
    simp [VPath.create_dir, h, with_context, Except.mapError]
  · intro h
    simp [VPath.open_file, h, with_context, Except.mapError]
  · intro h
    simp [VPath.create_file, h, with_context, Except.mapError]
  · intro h
    simp [VPath.append_file, h, with_context, Except.mapError]
  · intro h
    simp [VPath.metadata, h, with_context, Except.mapError]
  · intro h
    simp [VPath.remove_file, h, with_context, Except.mapError]
  · intro h
    simp [VPath.remove_dir, h, with_context, Except.mapError]

theorem c7_delegations_wrap_once_witness :
    (VPath.read_dir (VPath.mk "/p" BErr) () =
      (.error (.WithContext ("Could not read directory '" ++ "/p" ++ "'")
        (.Other "boom")), ())) ∧
    (VPath.create_dir (VPath.mk "/p" BErr) () =
      (.error (.WithContext ("Could not create directory '" ++ "/p" ++ "'")
        (.Other "boom")), ())) ∧
    (VPath.open_file (VPath.mk "/p" BErr) () =
      (.error (.WithContext ("Could not open file '" ++ "/p" ++ "'")
        (.Other "boom")), ())) ∧
    (VPath.create_file (VPath.mk "/p" BErr) () =
      (.error (.WithContext ("Could not create file '" ++ "/p" ++ "'")
        (.Other "boom")), ())) ∧
    (VPath.append_file (VPath.mk "/p" BErr) () =
      (.error (.WithContext ("Could not open file '" ++ "/p" ++ "' for appending")
        (.Other "boom")), ())) ∧
    (VPath.metadata (VPath.mk "/p" BErr) () =
      (.error (.WithContext ("Could get metadata for '" ++ "/p" ++ "'")
        (.IoError "io")), ())) ∧
    (VPath.remove_file (VPath.mk "/p" BErr) () =
      (.error (.WithContext ("Could not remove file '" ++ "/p" ++ "'")
        (.Other "boom")), ())) ∧
    (VPath.remove_dir (VPath.mk "/p" BErr) () =
      (.error (.WithContext ("Could not remove directory '" ++ "/p" ++ "'")
        (.Other "boom")), ())) := by
  refine ⟨?_, ?_, ?_, ?_, ?_, ?_, ?_, ?_⟩
  · exact (c7_delegations_wrap_once Unit Unit Unit BErr "/p" () (.Other "boom") ()).1 rfl
  · exact (c7_delegations_wrap_once Unit Unit Unit BErr "/p" () (.Other "boom") ()).2.1 rfl
  · exact (c7_delegations_wrap_once Unit Unit Unit BErr "/p" () (.Other "boom") ()).2.2.1 rfl
  · exact (c7_delegations_wrap_once Unit Unit Unit BErr "/p" () (.Other "boom") ()).2.2.2.1 rfl
  · exact (c7_delegations_wrap_once Unit Unit Unit BErr "/p" () (.Other "boom") ()).2.2.2.2.1 rfl
  · exact (c7_delegations_wrap_once Unit Unit Unit BErr "/p" () (.IoError "io") ()).2.2.2.2.2.1 rfl
  · exact (c7_delegations_wrap_once Unit Unit Unit BErr "/p" ()
      (.Other "boom") ()).2.2.2.2.2.2.1 rfl
  · exact (c7_delegations_wrap_once Unit Unit Unit BErr "/p" ()
      (.Other "boom") ()).2.2.2.2.2.2.2 rfl

/-- Claim C9: `join` concatenates the parent path, `'/'` and the segment and
shares the parent's filesystem handle; every handle yielded by `read_dir` has
the parent's path, `'/'` and a backend-returned child name as its path and
shares the filesystem handle. -/
theorem c9_join_concatenation :
    ∀ (σ ρ ω : Type) (v : VPath σ ρ ω) (seg : String) (s : σ)
      (names : List String) (s' : σ),
      (v.join seg).path = v.path ++ "/" ++ seg ∧
      (v.join seg).fs = v.fs ∧
      (v.fs.read_dir s v.path = (.ok names, s') →
        v.read_dir s =
          (.ok (names.map (fun name => VPath.mk (v.path ++ "/" ++ name) v.fs)), s')) := by
  intro σ ρ ω v seg s names s'
  refine ⟨rfl, rfl, ?_⟩
  intro h
  simp [VPath.read_dir, h, with_context, Except.mapError, Except.map]

theorem c9_join_concatenation_witness :
    ((VPath.mk "/d" BTwo).join "x").path = "/d" ++ "/" ++ "x" ∧
    ((VPath.mk "/d" BTwo).join "x").fs = BTwo ∧
    (VPath.mk "/d" BTwo).read_dir () =
      (.ok (["x", "y"].map (fun name => VPath.mk ("/d" ++ "/" ++ name) BTwo)), ()) := by
  obtain ⟨h1, h2, h3⟩ := c9_join_concatenation Unit Unit Unit
    (VPath.mk "/d" BTwo) "x" () ["x", "y"] ()
  exact ⟨h1, h2, h3 rfl⟩

/-- Claim C1: snapshot-on-open read isolation of the in-memory backend
(modelled from the spec, the `memory` module not being among the sources):
opening a file captures its bytes as an immutable snapshot; every subsequent
read from that reader returns the snapshot regardless of any later committed
mutation of the store (truncate-writes, append-writes, removal); meanwhile the
mutations are real: a reader opened after a truncate-write sees the new bytes,
after an append-write sees the extended bytes, and opening after removal
fails. -/
theorem c1_snapshot_on_open_isolation :
    ∀ (s : MemState) (p : String) (buf : List Nat),
      memGet s p = some buf →
      memOpenFile s p = .ok (MemReader.mk buf 0) ∧
      (∀ ops : List MemOp, memReadAll (applyMemOps s ops) (MemReader.mk buf 0) = buf) ∧
      (∀ bytes : List Nat,
        memOpenFile (applyMemOp s (MemOp.createWrite p bytes)) p =
          .ok (MemReader.mk bytes 0)) ∧
      (∀ bytes : List Nat,
        memOpenFile (applyMemOp s (MemOp.appendWrite p bytes)) p =
          .ok (MemReader.mk (buf ++ bytes) 0)) ∧
      memOpenFile (applyMemOp s (MemOp.removeF p)) p = .error (.FileNotFound p) := by
  intro s p buf h
  refine ⟨?_, ?_, ?_, ?_, ?_⟩
  · simp [memOpenFile, h]
  · intro ops
    simp [memReadAll]
  · intro bytes
    simp [applyMemOp, memCreateFile, memWrite, memGet_memSet_self, memOpenFile]
  · intro bytes
    simp [applyMemOp, memAppendFile, h, memWrite, memGet_memSet_self, memOpenFile]
  · simp [applyMemOp, memRemoveFile, h, memOpenFile, memGet_after_remove]

theorem c1_snapshot_on_open_isolation_witness :
    memOpenFile (MemState.mk [("f", [1, 2])]) "f" = .ok (MemReader.mk [1, 2] 0) ∧
    memReadAll (applyMemOps (MemState.mk [("f", [1, 2])]) [MemOp.createWrite "f" [9]])
      (MemReader.mk [1, 2] 0) = [1, 2] ∧
    memOpenFile (applyMemOp (MemState.mk [("f", [1, 2])]) (MemOp.createWrite "f" [9])) "f" =
      .ok (MemReader.mk [9] 0) ∧
    memOpenFile (applyMemOp (MemState.mk [("f", [1, 2])]) (MemOp.appendWrite "f" [7])) "f" =
      .ok (MemReader.mk ([1, 2] ++ [7]) 0) ∧
    memOpenFile (applyMemOp (MemState.mk [("f", [1, 2])]) (MemOp.removeF "f")) "f" =
      .error (.FileNotFound "f") := by
  obtain ⟨h1, h2, h3, h4, h5⟩ := c1_snapshot_on_open_isolation
    (MemState.mk [("f", [1, 2])]) "f" [1, 2] (by decide)
  exact ⟨h1, h2 [MemOp.createWrite "f" [9]], h3 [9], h4 [7], h5⟩

/-- Claim C3: for a handle with a non-empty path, `create_dir_all` is the
left-to-right walk over the accumulated `'/'`-separated prefixes of the path
(`prefixesOf`, characterised by the positions of `'/'` in the path) that, for
each prefix in turn, calls the backend's `create_dir` exactly when `exists`
returns false, aborts at the first failing `create_dir` returning its error,
and succeeds when no `create_dir` fails — which is what `createDirsSpec`
states. -/
theorem c3_create_dir_all_prefix_walk :
    ∀ (σ ρ ω : Type) (v : VPath σ ρ ω) (s : σ),
      v.path ≠ "" →
      v.create_dir_all s = some (createDirsSpec v.fs (prefixesOf v.path.data) s) := by
  intro σ ρ ω v s h
  exact create_dir_all_eval v s h

theorem c3_create_dir_all_prefix_walk_witness :
    VPath.create_dir_all (VPath.mk "/a/b" BList) [] =
      some (createDirsSpec BList (prefixesOf ("/a/b" : String).data) []) := by
  exact c3_create_dir_all_prefix_walk (List String) Unit Unit
    (VPath.mk "/a/b" BList) [] (by decide)

/-- Claim C10: for every handle with a non-empty path string the prefix scan
of `create_dir_all` keeps every slice index in bounds (the embedding returns
`some`, and being a total Lean function it terminates); the non-emptiness is
essential: the root handle made by `VPath::create` has the empty path, and on
it the scan's very first slice `path[1..]` is out of bounds (the embedding
returns `none`, modelling the panic). -/
theorem c10_scan_in_bounds :
    ∀ (σ ρ ω : Type) (B : Backend σ ρ ω) (s : σ),
      (∀ path : List Char, path ≠ [] → (createDirAllLoop B path 1 s).isSome = true) ∧
      (∀ v : VPath σ ρ ω, VPath.create B = .ok v →
        createDirAllLoop B v.path.data 1 s = none) := by
  intro σ ρ ω B s
  constructor
  · intro path hne
    have hlen : 1 ≤ path.length := by
      cases hq : path with
      | nil => exact absurd hq hne
      | cons a l => simp
    rw [createDirAllLoop_eq_spec B path (path.length + 1 - 1) 1 s rfl hlen]
    rfl
  · intro v hv
    have hveq : v = VPath.mk "" B := by
      simpa [VPath.create] using hv.symm
    subst hveq
    unfold createDirAllLoop
    rw [dif_neg]
    simp

theorem c10_scan_in_bounds_witness :
    (createDirAllLoop BList ("/a" : String).data 1 []).isSome = true ∧
    createDirAllLoop BList ("" : String).data 1 [] = none := by
  constructor
  · exact (c10_scan_in_bounds (List String) Unit Unit BList []).1
      ("/a" : String).data (by decide)
  · exact (c10_scan_in_bounds (List String) Unit Unit BList []).2
      (VPath.mk "" BList) rfl

/-- Claim C4: against a backend satisfying the capability-contract facts about
`create_dir` and `exists`, a second `create_dir_all` immediately after a
successful one succeeds, performs no `create_dir` call (its trace is the
`exists` checks only), and returns the very same backend state. -/
theorem c4_create_dir_all_idempotent :
    ∀ (σ ρ ω : Type) (v : VPath σ ρ ω) (s s' : σ) (t : List PrimCall),
      CreateDirContract v.fs →
      v.create_dir_all s = some (.ok (), s', t) →
      v.create_dir_all s' =
        some (.ok (), s', (prefixesOf v.path.data).map PrimCall.existsC) := by
  intro σ ρ ω v s s' t hc h1
  have hne : v.path ≠ "" := by
    intro he
    have hnone : v.create_dir_all s = none := by
      unfold VPath.create_dir_all
      rw [he]
      unfold createDirAllLoop
      rw [dif_neg]
      simp
    rw [hnone] at h1
    exact Option.noConfusion h1
  rw [create_dir_all_eval v s hne] at h1
  have hspec : createDirsSpec v.fs (prefixesOf v.path.data) s = (.ok (), s', t) :=
    Option.some.inj h1
  have hall := createDirsSpec_all_exist hc (prefixesOf v.path.data) s s' t hspec
  have hrun := createDirsSpec_all_true v.fs (prefixesOf v.path.data) s' hall
  rw [create_dir_all_eval v s' hne, hrun]

theorem c4_create_dir_all_idempotent_witness :
    VPath.create_dir_all (VPath.mk "/a" BList) ["/a"] =
      some (.ok (), ["/a"], (prefixesOf ("/a" : String).data).map PrimCall.existsC) := by
  have h1 : VPath.create_dir_all (VPath.mk "/a" BList) [] =
      some (.ok (), ["/a"], [PrimCall.existsC "/a", PrimCall.createDirC "/a"]) := by
    rw [create_dir_all_eval (VPath.mk "/a" BList) [] (by decide)]
    decide
  exact c4_create_dir_all_idempotent (List String) Unit Unit (VPath.mk "/a" BList)
    [] ["/a"] [PrimCall.existsC "/a", PrimCall.createDirC "/a"] BList_create_contract h1

/-- Claim C8 is refuted at a concrete input: `create_dir_all` invokes the
backend's `create_dir` directly (bypassing the context-wrapping
`VPath::create_dir`), so when the backend's `create_dir` fails the error
reaches the caller with no `WithContext` frame at all, not "exactly one":
on a backend whose `create_dir` fails with the leaf error `Other "boom"`,
`create_dir_all` returns that bare leaf error. -/
theorem c8_counterexample_no_context_frame :
    VPath.create_dir_all (VPath.mk "/a" BErr) () =
      some (.error (.Other "boom"), (), [PrimCall.existsC "/a", PrimCall.createDirC "/a"]) ∧
    (VfsError.Other "boom").isWithContext = false := by
  constructor
  · rw [create_dir_all_eval (VPath.mk "/a" BErr) () (by decide)]
    decide
  · decide

/-- Claim C8 (amended): when `create_dir_all` fails because one of its
internal `create_dir` calls fails, the error returned to the caller is
exactly the error the backend returned from that call, with no context frame
added (the source calls `self.fs.vfs.create_dir(directory)?` directly,
bypassing the context-attaching path method). -/
theorem c8_amended_error_returned_unwrapped :
    ∀ (σ ρ ω : Type) (v : VPath σ ρ ω) (s : σ) (e : VfsError) (s' : σ)
      (t : List PrimCall),
      v.create_dir_all s = some (.error e, s', t) →
      ∃ d s₀, v.fs.create_dir s₀ d = (.error e, s') := by
  intro σ ρ ω v s e s' t h
  have hne : v.path ≠ "" := by
    intro he
    have hnone : v.create_dir_all s = none := by
      unfold VPath.create_dir_all
      rw [he]
      unfold createDirAllLoop
      rw [dif_neg]
      simp
    rw [hnone] at h
    exact Option.noConfusion h
  rw [create_dir_all_eval v s hne] at h
  exact createDirsSpec_error v.fs (prefixesOf v.path.data) s e s' t (Option.some.inj h)

theorem c8_amended_error_returned_unwrapped_witness :
    ∃ d s₀, BErr.create_dir s₀ d = (.error (.Other "boom"), ()) := by
  have h : VPath.create_dir_all (VPath.mk "/a" BErr) () =
      some (.error (.Other "boom"), (), [PrimCall.existsC "/a", PrimCall.createDirC "/a"]) := by
    rw [create_dir_all_eval (VPath.mk "/a" BErr) () (by decide)]
    decide
  exact c8_amended_error_returned_unwrapped Unit Unit Unit (VPath.mk "/a" BErr) ()
    (.Other "boom") () [PrimCall.existsC "/a", PrimCall.createDirC "/a"] h

/-- Claim C5: `remove_dir_all` on a path whose `exists` check is false returns
success immediately with the backend state untouched, its only backend call
being that `exists` check. -/
theorem c5_remove_dir_all_nonexistent_noop :
    ∀ (σ ρ ω : Type) (v : VPath σ ρ ω) (fuel : Nat) (s : σ),
      v.fs.exists_ s v.path = false →
      removeDirAllFuel (fuel + 1) v s = some (.ok (), s, [PrimCall.existsC v.path]) := by
  intro σ ρ ω v fuel s h
  simp [removeDirAllFuel, VPath.exists_, h]

theorem c5_remove_dir_all_nonexistent_noop_witness :
    removeDirAllFuel 1 (VPath.mk "/a" BList) [] =
      some (.ok (), [], [PrimCall.existsC "/a"]) := by
  exact c5_remove_dir_all_nonexistent_noop (List String) Unit Unit
    (VPath.mk "/a" BList) 0 [] (by decide)

/-- Claim C2: on an existing path, `remove_dir_all` agrees (in outcome and
final state) with the spec's algorithm `removeDirAllSpec` — list the children
via `read_dir`, per child inspect metadata and remove a file with
`remove_file` or recurse into a directory, then `remove_dir` the emptied
directory, the first failing call aborting with its error — and, against a
backend whose `remove_dir` satisfies the capability contract, a successful
run leaves `exists` false on the path. -/
theorem c2_remove_dir_all_traversal :
    ∀ (σ ρ ω : Type) (v : VPath σ ρ ω) (fuel : Nat) (s : σ),
      RemoveDirContract v.fs →
      v.fs.exists_ s v.path = true →
      stripTrace (removeDirAllFuel fuel v s) = removeDirAllSpec fuel v s ∧
      (∀ (s' : σ) (t : List PrimCall),
        removeDirAllFuel fuel v s = some (.ok (), s', t) →
        v.fs.exists_ s' v.path = false) := by
  intro σ ρ ω v fuel s hc _hx
  exact ⟨(removeDirAll_eq_spec fuel).1 v s,
    fun s' t h => removeDirAllFuel_ok_not_exists v hc fuel s s' t h⟩

theorem c2_remove_dir_all_traversal_witness :
    stripTrace (removeDirAllFuel 1 (VPath.mk "/a" BList) ["/a"]) =
      removeDirAllSpec 1 (VPath.mk "/a" BList) ["/a"] ∧
    BList.exists_ [] "/a" = false := by
  obtain ⟨h1, h2⟩ := c2_remove_dir_all_traversal (List String) Unit Unit
    (VPath.mk "/a" BList) 1 ["/a"] BList_remove_contract (by decide)
  refine ⟨h1, h2 [] [PrimCall.existsC "/a", PrimCall.readDirC "/a", PrimCall.removeDirC "/a"] ?_⟩
  unfold removeDirAllFuel removeChildrenFuel
  simp [BList, VPath.exists_, VPath.read_dir, VPath.remove_dir, with_context,
    Except.map, Except.mapError]
